import Mathlib

/-!
# Verification of the Scribber story backend

Shallow embedding of the story-text parsing and page-segmentation pipeline of
`src/backend/index.js`, the page renderer contract of
`src/backend/renderPageToImage.js`, and the HTTP validation logic of the
`/api/story` and `/api/send-images-email` endpoints.

Strings are modelled as their underlying character lists; the JavaScript
regular expressions used by the parser are implemented as deterministic
character scanners that reproduce the regex-engine behaviour (greedy
quantifiers with the backtracking that the concrete patterns allow).
-/

namespace Scribber

/-- JS `\s` restricted to the ASCII whitespace characters that can occur in
the texts handled here (space, tab, newline, carriage return, vertical tab,
form feed). -/
def isJsWs (c : Char) : Bool :=
  c = ' ' || c = '\t' || c = '\n' || c = '\r' || c = '\x0b' || c = '\x0c'

/-- JS `\d`. -/
def isDig (c : Char) : Bool := ('0' ≤ c) && (c ≤ '9')

/-- JS `[0-9a-fA-F]`. -/
def isHexDig (c : Char) : Bool :=
  (('0' ≤ c) && (c ≤ '9')) || (('a' ≤ c) && (c ≤ 'f')) || (('A' ≤ c) && (c ≤ 'F'))

/-- `String.prototype.trim`, left side (drop leading whitespace). -/
def jsTrimL (l : List Char) : List Char := l.dropWhile isJsWs

/-- `String.prototype.trim`, right side (drop trailing whitespace). -/
def jsTrimR (l : List Char) : List Char := (l.reverse.dropWhile isJsWs).reverse

/-- `String.prototype.trim` on a character list (dropping trailing then
leading whitespace; the order is immaterial). -/
def jsTrimList (l : List Char) : List Char := jsTrimL (jsTrimR l)

/-- `String.prototype.trim`. -/
def jsTrim (s : String) : String := ⟨jsTrimList s.data⟩

/-- Match a literal string at the head of the input; on success return the
rest of the input. -/
def dropLit : List Char → List Char → Option (List Char)
  | [], l => some l
  | _ :: _, [] => none
  | p :: ps, c :: cs => if c = p then dropLit ps cs else none

/-- Match a literal string case-insensitively (JS `/.../i`). -/
def dropLitCI : List Char → List Char → Option (List Char)
  | [], l => some l
  | _ :: _, [] => none
  | p :: ps, c :: cs => if c.toLower = p.toLower then dropLitCI ps cs else none

/-- `[0-9a-fA-F]{n}`: consume exactly `n` hex digits. -/
def takeHex : Nat → List Char → Option (List Char × List Char)
  | 0, l => some ([], l)
  | _ + 1, [] => none
  | n + 1, c :: cs =>
    if isHexDig c then (takeHex n cs).map (fun p => (c :: p.1, p.2)) else none

/-- The optional parenthetical annotation `\s*\([^\)]*\)`: skip whitespace,
then consume a parenthesised group.  Returns the rest after the closing
parenthesis, or `none` when the group is not present (the caller then
backtracks to the no-annotation alternative, exactly as the regex engine
does for the optional group). -/
def tryParen (l : List Char) : Option (List Char) :=
  (dropLit ['('] (l.dropWhile isJsWs)).bind fun cs =>
    dropLit [')'] (cs.dropWhile (fun c => c != ')'))

/-- `\s*\n` immediately followed by a non-whitespace literal: because the
continuation starts with a non-whitespace character, the regex engine's
backtracking forces `\n` to be the last character of the maximal whitespace
run.  Succeeds exactly when the leading whitespace run is non-empty and ends
with a newline, returning the input after the run. -/
def wsNlThen (l : List Char) : Option (List Char) :=
  if (l.takeWhile isJsWs).getLast? = some '\n' then some (l.dropWhile isJsWs) else none

/-- After the first hex capture's optional annotation: `\s*\n` immediately
followed by the literal `Background Color:`. -/
def bgCont (x : List Char) : Option (List Char) :=
  (wsNlThen x).bind fun y => dropLit "Background Color:".data y

/-- `(?:\s*\([^\)]*\))?\s*\nBackground Color:` after the first hex capture:
the regex engine first tries the greedy optional annotation, backtracking to
the no-annotation alternative when anything after it fails (in which case
the continuation without the annotation runs from the same point). -/
def afterHex1 (l4 : List Char) : Option (List Char) :=
  ((tryParen l4).bind bgCont).or (bgCont l4)

/-- After the second hex capture: the optional annotation
`(?:\s*\([^\)]*\))?` followed by the replacement regex's trailing
`(?:\s*\n?)?` (a maximal whitespace run). -/
def afterHex2 (l9 : List Char) : List Char :=
  (match tryParen l9 with | some x => x | none => l9).dropWhile isJsWs

/-- The color-block regexes of `src/backend/index.js` (lines 83–84), matched
at the current position.  Capture regex:
`Text Color:\s*(#[0-9a-fA-F]{6})(?:\s*\([^\)]*\))?\s*\nBackground Color:\s*(#[0-9a-fA-F]{6})(?:\s*\([^\)]*\))?`;
the replacement regex `colorBlockRegex` additionally consumes `(?:\s*\n?)?`.
Both share all mandatory parts, so one scanner computes the two captured hex
colors together with the rest of the input after the replacement regex's
match. -/
def matchColorAt (l : List Char) : Option (String × String × List Char) :=
  (dropLit "Text Color:".data l).bind fun l1 =>
    (dropLit ['#'] (l1.dropWhile isJsWs)).bind fun l3 =>
      (takeHex 6 l3).bind fun p1 =>
        (afterHex1 p1.2).bind fun l6 =>
          (dropLit ['#'] (l6.dropWhile isJsWs)).bind fun l8 =>
            (takeHex 6 l8).map fun p2 =>
              (⟨'#' :: p1.1⟩, ⟨'#' :: p2.1⟩, afterHex2 p2.2)

/-- Leftmost match of the color-block pattern: scan positions left to right
(as `String.prototype.match` / `replace` do).  On success, return the text
before the match, the two captured colors, and the text after the
(replacement-regex) match. -/
def findColor : List Char → Option (List Char × String × String × List Char)
  | [] => none
  | c :: cs =>
    match matchColorAt (c :: cs) with
    | some (c1, c2, rest) => some ([], c1, c2, rest)
    | none =>
      match findColor cs with
      | some (pre, c1, c2, rest) => some (c :: pre, c1, c2, rest)
      | none => none

/-- Lines 80–90 of `src/backend/index.js`: extract the recommended colors,
defaulting to `'#222'` / `'#fffbe9'`, and remove the first `colorBlockRegex`
match from the story (then trim) when the capture regex matched.  Returns
`(textColor, backgroundColor, story)`. -/
def colorScanL (l : List Char) : String × String × List Char :=
  match findColor l with
  | some (pre, c1, c2, post) => (c1, c2, jsTrimList (pre ++ post))
  | none => ("#222", "#fffbe9", l)

/-- The `story` variable after the color-block removal step (the text that
is subsequently split into title and pages). -/
def remainingTextL (l : List Char) : List Char := (colorScanL l).2.2

/-- String-level view of `remainingTextL`. -/
def remainingText (s : String) : String := ⟨remainingTextL s.data⟩

/-- `/Page \d+/` matched at the current position: the literal `Page `
followed by one or more digits (greedy).  Returns the rest of the input
after the digit run. -/
def matchMarkerAt (l : List Char) : Option (List Char) :=
  match dropLit "Page ".data l with
  | some (c :: cs) => if isDig c then some (cs.dropWhile isDig) else none
  | _ => none

/-- `story.split(/Page \d+/)`: scan left to right; each leftmost marker
match ends the current segment, and scanning resumes after the match.  The
`fuel` argument makes the recursion structural (every step consumes input,
so any `fuel ≥ l.length` yields the scan's result); the fuel-exhausted
branch is unreachable under that bound. -/
def splitGo : Nat → List Char → List Char → List (List Char)
  | 0, l, acc => [acc.reverse ++ l]
  | fuel + 1, l, acc =>
    match matchMarkerAt l with
    | some rest => acc.reverse :: splitGo fuel rest []
    | none =>
      match l with
      | [] => [acc.reverse]
      | c :: cs => splitGo fuel cs (c :: acc)

/-- `story.split(/Page \d+/)` on a character list. -/
def splitPagesL (l : List Char) : List (List Char) := splitGo l.length l []

/-- `[...story.matchAll(/Page \d+/g)].length`: the number of page markers,
scanned exactly as `splitGo` scans. -/
def countMarkersGo : Nat → List Char → Nat
  | 0, _ => 0
  | fuel + 1, l =>
    match matchMarkerAt l with
    | some rest => countMarkersGo fuel rest + 1
    | none =>
      match l with
      | [] => 0
      | _ :: cs => countMarkersGo fuel cs

/-- Number of `Page N` markers in a character list. -/
def countMarkersL (l : List Char) : Nat := countMarkersGo l.length l

/-- Number of `Page N` markers in a string. -/
def countPageMarkers (s : String) : Nat := countMarkersL s.data

/-- `replace(/^Title:\s*/i, '')` from line 96. -/
def stripTitleLabelL (l : List Char) : List Char :=
  match dropLitCI "Title:".data l with
  | some rest => rest.dropWhile isJsWs
  | none => l

/-- String-level view of `stripTitleLabelL`. -/
def stripTitleLabel (s : String) : String := ⟨stripTitleLabelL s.data⟩

/-- The `Story` value produced by the `/api/story` parsing pipeline. -/
structure Story where
  title : String
  pages : List String
  textColor : String
  backgroundColor : String
deriving Repr, DecidableEq

/-- Lines 78–97 of `src/backend/index.js`: color extraction and removal,
page splitting, title cleanup, and the trim-and-drop-empty treatment of the
page segments. -/
def parseStoryL (l : List Char) : Story :=
  let scan := colorScanL l
  let splits := splitPagesL scan.2.2
  let title : String := ⟨jsTrimList (stripTitleLabelL (splits.headD []))⟩
  let pages := ((splits.tail.map jsTrimList).filter (fun seg => !seg.isEmpty)).map
    (fun seg => (⟨seg⟩ : String))
  { title := title, pages := pages, textColor := scan.1, backgroundColor := scan.2.1 }

/-- The story parser applied to a string. -/
def parseStory (s : String) : Story := parseStoryL s.data

/-- A six-hex-digit color string: `#` followed by exactly six hex digits. -/
def isSixHexColor (s : String) : Bool :=
  match s.data with
  | '#' :: rest => rest.length = 6 && rest.all isHexDig
  | _ => false

/-! ## The text generator (`src/backend/index.js` lines 71–78) -/

/-- Error classes of the external generation service. -/
inductive GenError where
  | rateLimited
  | serviceUnavailable
  | otherFailure (message : String)
deriving Repr, DecidableEq

/-- Rate-limit / service-unavailable errors are the retryable class. -/
def GenError.retryable : GenError → Bool
  | .rateLimited => true
  | .serviceUnavailable => true
  | .otherFailure _ => false

/-- Lines 71–78: the generator issues a single `ai.models.generateContent`
call with the fixed model identifier `gemini-2.5-flash`; any error
propagates to the surrounding catch.  `call` abstracts the external
service. -/
def generateStoryText (call : String → Except GenError String) :
    Except GenError String :=
  call "gemini-2.5-flash"

/-- The spec's ordered-fallback algorithm (spec §4.1), stated from the
spec's words for refinement comparison with `generateStoryText`: try each
candidate in order; on a retryable failure move to the next candidate; on
any other failure abort immediately; when the list is exhausted, fail with
the last error observed (`last`). -/
def specFallbackGo (call : String → Except GenError String) :
    List String → GenError → Except GenError String
  | [], last => .error last
  | m :: ms, _ =>
    match call m with
    | .ok t => .ok t
    | .error e => if e.retryable then specFallbackGo call ms e else .error e

/-! ## `/api/story` validation and artifact cleanup (lines 44–66) -/

/-- A file name matches the glob `story_page_*.png`. -/
def matchesArtifactGlob (name : String) : Bool :=
  "story_page_".data.isPrefixOf name.data && ".png".data.isSuffixOf name.data

/-- Outcome of the `/api/story` handler up to and including validation. -/
structure StoryValidationOutcome where
  status : Option Nat
  files : List String
  pipelineRan : Bool
deriving Repr, DecidableEq

/-- Lines 44–66: the handler first deletes every file matching
`story_page_*.png` from the artifact directory, then destructures the body
and responds 400 when `ERA_OR_CULTURE` is falsy (absent or the empty
string); only otherwise does the generation/rendering pipeline run. -/
def storyEndpointPreamble (files : List String) (eraOrCulture : Option String) :
    StoryValidationOutcome :=
  let files1 := files.filter (fun f => !matchesArtifactGlob f)
  if eraOrCulture.getD "" = "" then
    { status := some 400, files := files1, pipelineRan := false }
  else
    { status := none, files := files1, pipelineRan := true }

/-! ## `/api/story` image rendering loop (lines 100–129) -/

/-- `path.join(__dirname, "story_page_" + i + ".png")`, with the directory
prefix abstracted as `dir`. -/
def imagePathFor (dir : String) (i : Nat) : String :=
  dir ++ "story_page_" ++ Nat.repr i ++ ".png"

/-- The render calls of the `/api/story` success path, in order: the title
page first (unconditionally, even when the title is empty and even when
there are no pages), then one call per page.  Each element is
`(sourceText, filePath)`. -/
def storyRenderCalls (dir : String) (title : String) (pages : List String) :
    List (String × String) :=
  (title, imagePathFor dir 0) ::
    (List.range pages.length).map (fun i => (pages.getD i "", imagePathFor dir (i + 1)))

/-- The `imagePaths` array returned by the `/api/story` success response. -/
def storyImagePaths (dir : String) (title : String) (pages : List String) :
    List String :=
  (storyRenderCalls dir title pages).map Prod.snd

/-! ## `/api/send-images-email` validation (lines 195–199) -/

/-- `String.prototype.includes`: `needle` occurs as a contiguous substring
of `hay`. -/
def includesSub (hay needle : List Char) : Bool :=
  match hay with
  | [] => needle.isEmpty
  | _ :: cs => needle.isPrefixOf hay || includesSub cs needle

/-- Line 197: the handler responds 400 exactly when
`!email || !email.includes('@gmail.com') || !Array.isArray(imagePaths) || imagePaths.length === 0`.
`email` is the JSON field (`none` when absent); `imagePaths` is `none` when
absent or not an array. -/
def emailValidationRejects (email : Option String)
    (imagePaths : Option (List String)) : Bool :=
  (email.getD "") = "" || !includesSub (email.getD "").data "@gmail.com".data ||
    imagePaths.isNone || (imagePaths.getD []).isEmpty

/-! ## The page renderer (`src/backend/renderPageToImage.js`) -/

/-- JS `x || d` for an optional numeric option (`0` is falsy). -/
def jsOrNat (v : Option Nat) (d : Nat) : Nat :=
  match v with
  | some n => if n = 0 then d else n
  | none => d

/-- JS `x || d` for an optional string option (`''` is falsy). -/
def jsOrStr (v : Option String) (d : String) : String :=
  match v with
  | some s => if s = "" then d else s
  | none => d

/-- The options bag accepted by `renderPageToImage` (lines 58–70). -/
structure RenderOptions where
  pageNumber : Option String := none
  width : Option Nat := none
  height : Option Nat := none
  fontSize : Option Nat := none
  margin : Option Nat := none
  fontFamily : Option String := none
  background : Option String := none
  textColor : Option String := none
deriving Repr

/-- The `.page-number` element of the generated document (lines 111–121 and
126): an absolutely positioned element anchored at `right: 32px` /
`bottom: 24px` from the bottom-right corner, `font-size: 24px`,
`opacity: 0.7` (stored as tenths). -/
structure PageNumberElement where
  label : String
  fontSizePx : Nat
  rightPx : Nat
  bottomPx : Nat
  opacityTenths : Nat
deriving Repr, DecidableEq

/-- The document constructed by `renderPageToImage` (lines 74–129): the
fixed-size page, the centered content box, and the optional page-number
element. -/
structure RenderedDocument where
  content : String
  contentFontSizePx : Nat
  widthPx : Nat
  heightPx : Nat
  marginPx : Nat
  background : String
  textColor : String
  fontFamily : String
  pageNumberElem : Option PageNumberElement
deriving Repr

/-- Line 125: `text.replace(/</g, '&lt;').replace(/>/g, '&gt;')` (the first
replacement introduces no `>`, so one pass is equivalent). -/
def escapeHtml (s : String) : String :=
  ⟨(s.data.map (fun c =>
      if c = '<' then "&lt;".data else if c = '>' then "&gt;".data else [c])).flatten⟩

/-- Lines 53–129: option defaulting (`options.x || default`) and document
construction.  The page-number element is present exactly when the
effective `pageNumber` (`options.pageNumber || ''`) is non-empty. -/
def renderDocument (text : String) (o : RenderOptions) : RenderedDocument :=
  let pageNumber := jsOrStr o.pageNumber ""
  { content := escapeHtml text
    contentFontSizePx := jsOrNat o.fontSize 32
    widthPx := jsOrNat o.width 1080
    heightPx := jsOrNat o.height 1080
    marginPx := jsOrNat o.margin 120
    background := jsOrStr o.background "#fffbe9"
    textColor := jsOrStr o.textColor "#222"
    fontFamily := jsOrStr o.fontFamily "Ubuntu, DejaVu Sans, sans-serif"
    pageNumberElem :=
      if pageNumber = "" then none
      else some { label := pageNumber, fontSizePx := 24, rightPx := 32,
                  bottomPx := 24, opacityTenths := 7 } }

/-! ## `GET /api/download-images` (modelled from the spec) -/

/-- Archive construction failure. -/
inductive ArchiveError where
  | failure (message : String)
deriving Repr, DecidableEq

/-- An HTTP response of the download endpoint. -/
structure DownloadResponse where
  status : Nat
  contentType : Option String
  contentDisposition : Option String
  body : Option (List Nat)
deriving Repr, DecidableEq

/-- Modelled from the spec: the `GET /api/download-images` route handler is
absent from `src/` (only its frontend caller exists, in
`src/unnamed/part_000`).  Per the spec's interface table (§6): respond with
a binary zip stream with `Content-Type: application/zip` and
`Content-Disposition: attachment` when current images exist, 400 if no
current images exist, and 500 on archive failure.  `archive` abstracts the
zip packager. -/
def downloadImagesHandler (currentImages : List String)
    (archive : List String → Except ArchiveError (List Nat)) : DownloadResponse :=
  if currentImages.isEmpty then
    { status := 400, contentType := none, contentDisposition := none, body := none }
  else
    match archive currentImages with
    | .error _ =>
      { status := 500, contentType := none, contentDisposition := none, body := none }
    | .ok bytes =>
      { status := 200, contentType := some "application/zip",
        contentDisposition := some "attachment", body := some bytes }

/-! ## Canonical well-formed generated texts

The C1 family: a title segment, `K ≥ 1` marker-introduced page segments,
and a trailing valid color block, assembled exactly as the generated text
the parser is specified on. -/

/-- No `Page N` marker match starts at any position of `l`. -/
def noMarkerL : List Char → Bool
  | [] => true
  | c :: cs => (matchMarkerAt (c :: cs)).isNone && noMarkerL cs

/-- No `Page N` marker match starts at any of the first `n` positions. -/
def noMarkerWithin : Nat → List Char → Bool
  | 0, _ => true
  | _ + 1, [] => true
  | n + 1, c :: cs => (matchMarkerAt (c :: cs)).isNone && noMarkerWithin n cs

/-- No color-block match starts at any of the first `n` positions. -/
def noColorWithin : Nat → List Char → Bool
  | 0, _ => true
  | _ + 1, [] => true
  | n + 1, c :: cs => (matchColorAt (c :: cs)).isNone && noColorWithin n cs

/-- The text following a marker-free segment is junction-safe when its first
character can neither continue a partial `Page ` literal begun inside the
segment (`a`, `g`, `e`, space) nor extend it with a digit.  The assembled
texts only ever juxtapose segments with `Page ...` or `Text Color: ...`,
whose initial `P` / `T` are junction-safe. -/
def safeJunction : List Char → Bool
  | [] => true
  | c :: _ => !isDig c && !(c = 'a' || c = 'g' || c = 'e' || c = ' ')

/-- One page chunk of the canonical text: the marker `Page ` with digit run
`d`, followed by the page's raw segment `b`. -/
def markerChunk (d b : List Char) : List Char := "Page ".data ++ d ++ b

/-- The concatenation of all page chunks. -/
def chunksJoin (ps : List (List Char × List Char)) : List Char :=
  (ps.map (fun p => markerChunk p.1 p.2)).flatten

/-- The canonical text before the color block: title segment, then chunks. -/
def assemblePrefix (t : List Char) (ps : List (List Char × List Char)) : List Char :=
  t ++ chunksJoin ps

/-- A trailing valid color block with hex digit runs `c1` and `c2`. -/
def colorBlockL (c1 c2 : List Char) : List Char :=
  "Text Color: #".data ++ c1 ++ "\nBackground Color: #".data ++ c2

/-- The full canonical generated text. -/
def assembleText (t : List Char) (ps : List (List Char × List Char))
    (c1 c2 : List Char) : List Char :=
  assemblePrefix t ps ++ colorBlockL c1 c2

/-- A valid hex capture: exactly six hex digits. -/
def goodHex (c : List Char) : Bool := decide (c.length = 6) && c.all isHexDig

/-- A valid marker digit run: non-empty, all digits. -/
def goodDigits (d : List Char) : Bool := !d.isEmpty && d.all isDig

/-- A well-formed page segment: non-empty after trimming, not starting with
a digit (which would be absorbed into the preceding marker's digit run),
and containing no `Page N` marker of its own. -/
def goodBody (b : List Char) : Bool :=
  !(jsTrimList b).isEmpty && !isDig (b.headD 'a') && noMarkerL b

/-- What the page-splitting scan needs of a segment: non-empty, not
starting with a digit, marker-free. -/
def splitBody (b : List Char) : Bool :=
  !b.isEmpty && !isDig (b.headD 'a') && noMarkerL b

/-! ## Supporting lemmas -/

theorem dropLit_self_append (p x : List Char) : dropLit p (p ++ x) = some x := by
  induction p with
  | nil => rfl
  | cons c cs ih => simp [dropLit, ih]

theorem dropLit_append_some {p y r : List Char} (z : List Char)
    (h : dropLit p y = some r) : dropLit p (y ++ z) = some (r ++ z) := by
  induction p generalizing y with
  | nil =>
    simp only [dropLit, Option.some.injEq] at h
    subst h
    rfl
  | cons c cs ih =>
    cases y with
    | nil => simp [dropLit] at h
    | cons a ys =>
      by_cases hac : a = c
      · simp only [dropLit, List.cons_append, if_pos hac] at h ⊢
        exact ih h
      · simp [dropLit, hac] at h

theorem dropWhile_all_append {q : Char → Bool} {d y : List Char}
    (hd : ∀ c ∈ d, q c = true) (hy : ∀ c ∈ y.head?, q c = false) :
    (d ++ y).dropWhile q = y := by
  induction d with
  | nil =>
    cases y with
    | nil => rfl
    | cons c ys =>
      have := hy c (by simp)
      simp [List.dropWhile_cons, this]
  | cons a ds ih =>
    have ha := hd a (by simp)
    simp only [List.cons_append, List.dropWhile_cons, ha, if_true]
    exact ih (fun c hc => hd c (by simp [hc]))

theorem dropWhile_append_of_ne {p : Char → Bool} {l : List Char} (z : List Char)
    (h : l.dropWhile p ≠ []) : (l ++ z).dropWhile p = l.dropWhile p ++ z := by
  induction l with
  | nil => simp [List.dropWhile] at h
  | cons c cs ih =>
    by_cases hc : p c = true
    · simp only [List.cons_append, List.dropWhile_cons_of_pos hc] at h ⊢
      exact ih h
    · have hc2 : p c = false := by simpa using hc
      simp [List.dropWhile_cons, hc2]

theorem dropWhile_idem {p : Char → Bool} (l : List Char) :
    (l.dropWhile p).dropWhile p = l.dropWhile p := by
  cases h : l.dropWhile p with
  | nil => rfl
  | cons c cs =>
    have hf := List.head?_dropWhile_not p l
    rw [h] at hf
    simp only [List.head?_cons] at hf
    simp [List.dropWhile_cons, hf]

theorem trimL_append {x z : List Char} (hz : ∀ c ∈ z.head?, isJsWs c = false) :
    jsTrimL (x ++ z) = jsTrimL x ++ z := by
  induction x with
  | nil =>
    simp only [List.nil_append, jsTrimL]
    cases z with
    | nil => rfl
    | cons c cs => simp [List.dropWhile_cons, hz c (by simp)]
  | cons c cs ih =>
    by_cases hc : isJsWs c = true
    · simp only [jsTrimL, List.cons_append, List.dropWhile_cons, hc, if_true] at ih ⊢
      exact ih
    · have hc2 : isJsWs c = false := by simpa using hc
      simp [jsTrimL, List.dropWhile_cons, hc2]

theorem trimR_append {x b : List Char} (hb : jsTrimR b ≠ []) :
    jsTrimR (x ++ b) = x ++ jsTrimR b := by
  unfold jsTrimR at hb ⊢
  have hrev : b.reverse.dropWhile isJsWs ≠ [] := by
    intro hcon
    rw [hcon] at hb
    exact hb rfl
  rw [List.reverse_append, dropWhile_append_of_ne _ hrev, List.reverse_append,
    List.reverse_reverse]

theorem trimR_idem (l : List Char) : jsTrimR (jsTrimR l) = jsTrimR l := by
  unfold jsTrimR
  rw [List.reverse_reverse, dropWhile_idem]

theorem trim_trimR (b : List Char) : jsTrimList (jsTrimR b) = jsTrimList b := by
  unfold jsTrimList
  rw [trimR_idem]

theorem trimR_ne_nil {b : List Char} (hb : jsTrimList b ≠ []) : jsTrimR b ≠ [] := by
  intro h
  apply hb
  unfold jsTrimList
  rw [h]
  rfl

theorem ne_nil_of_trim_ne_nil {b : List Char} (hb : jsTrimList b ≠ []) : b ≠ [] := by
  intro h
  subst h
  exact hb rfl

theorem trimR_prefix (b : List Char) : jsTrimR b ++ (b.reverse.takeWhile isJsWs).reverse = b := by
  unfold jsTrimR
  rw [← List.reverse_append, List.takeWhile_append_dropWhile, List.reverse_reverse]

theorem head?_trimR {b : List Char} (hb : jsTrimR b ≠ []) :
    (jsTrimR b).head? = b.head? := by
  conv_rhs => rw [← trimR_prefix b]
  cases htr : jsTrimR b with
  | nil => exact absurd htr hb
  | cons c cs => simp

theorem noMarkerL_append_right {x y : List Char} (h : noMarkerL (x ++ y) = true) :
    noMarkerL y = true := by
  induction x with
  | nil => exact h
  | cons c cs ih =>
    simp only [List.cons_append, noMarkerL, Bool.and_eq_true] at h
    exact ih h.2

theorem matchMarkerAt_extend {y r : List Char} (z : List Char)
    (h : matchMarkerAt y = some r) : (matchMarkerAt (y ++ z)).isSome = true := by
  unfold matchMarkerAt at h ⊢
  cases hd : dropLit "Page ".data y with
  | none => rw [hd] at h; simp at h
  | some rest =>
    rw [hd] at h
    cases rest with
    | nil => simp at h
    | cons c cs =>
      have hd2 := dropLit_append_some z hd
      rw [hd2, List.cons_append]
      by_cases hc : isDig c = true
      · simp [hc]
      · simp [hc] at h

theorem noMarkerL_append_left {y z : List Char} (h : noMarkerL (y ++ z) = true) :
    noMarkerL y = true := by
  induction y with
  | nil => rfl
  | cons c cs ih =>
    rw [List.cons_append] at h
    simp only [noMarkerL, Bool.and_eq_true, Option.isNone_iff_eq_none] at h ⊢
    obtain ⟨h1, h2⟩ := h
    refine ⟨?_, ih h2⟩
    cases hm : matchMarkerAt (c :: cs) with
    | none => rfl
    | some r =>
      exfalso
      have hext := matchMarkerAt_extend z hm
      rw [List.cons_append, h1] at hext
      simp at hext

theorem noMarker_trimR {b : List Char} (h : noMarkerL b = true) :
    noMarkerL (jsTrimR b) = true := by
  have hp := trimR_prefix b
  rw [← hp] at h
  exact noMarkerL_append_left h

theorem noMarker_trimL {t : List Char} (h : noMarkerL t = true) :
    noMarkerL (jsTrimL t) = true := by
  obtain ⟨x, hx⟩ : ∃ x, x ++ jsTrimL t = t := by
    refine ⟨t.takeWhile isJsWs, ?_⟩
    unfold jsTrimL
    exact List.takeWhile_append_dropWhile isJsWs t
  rw [← hx] at h
  exact noMarkerL_append_right h

theorem matchMarkerAt_append_none {y : List Char} (z : List Char)
    (hy : matchMarkerAt y = none) (hne : y ≠ []) (hz : safeJunction z = true) :
    matchMarkerAt (y ++ z) = none := by
  rcases y with _ | ⟨a, _ | ⟨b, _ | ⟨c, _ | ⟨d, _ | ⟨e, rest⟩⟩⟩⟩⟩
  · exact absurd rfl hne
  · -- y = [a]: a match must span into z, whose head would have to be 'a'
    cases z with
    | nil => simp [matchMarkerAt, dropLit]
    | cons w zs =>
      simp only [matchMarkerAt, dropLit, List.cons_append, List.append_nil,
        List.nil_append] at hy ⊢
      by_cases ha : a = 'P'
      · subst ha
        simp only [if_pos rfl]
        by_cases hw : w = 'a'
        · simp [safeJunction, hw] at hz
        · simp [hw]
      · simp [ha]
  · cases z with
    | nil => simp [matchMarkerAt, dropLit]
    | cons w zs =>
      simp only [matchMarkerAt, dropLit, List.cons_append, List.nil_append] at hy ⊢
      by_cases ha : a = 'P'
      · subst ha
        by_cases hb : b = 'a'
        · subst hb
          simp only [if_pos rfl]
          by_cases hw : w = 'g'
          · simp [safeJunction, hw] at hz
          · simp [hw]
        · simp [hb]
      · simp [ha]
  · cases z with
    | nil => simp [matchMarkerAt, dropLit]
    | cons w zs =>
      simp only [matchMarkerAt, dropLit, List.cons_append, List.nil_append] at hy ⊢
      by_cases ha : a = 'P'
      · subst ha
        by_cases hb : b = 'a'
        · subst hb
          by_cases hc : c = 'g'
          · subst hc
            simp only [if_pos rfl]
            by_cases hw : w = 'e'
            · simp [safeJunction, hw] at hz
            · simp [hw]
          · simp [hc]
        · simp [hb]
      · simp [ha]
  · cases z with
    | nil => simp [matchMarkerAt, dropLit]
    | cons w zs =>
      simp only [matchMarkerAt, dropLit, List.cons_append, List.nil_append] at hy ⊢
      by_cases ha : a = 'P'
      · subst ha
        by_cases hb : b = 'a'
        · subst hb
          by_cases hc : c = 'g'
          · subst hc
            by_cases hd : d = 'e'
            · subst hd
              simp only [if_pos rfl]
              by_cases hw : w = ' '
              · simp [safeJunction, hw] at hz
              · simp [hw]
            · simp [hd]
          · simp [hc]
        · simp [hb]
      · simp [ha]
  · -- y has at least five characters: the literal part lies inside y,
    -- and only the digit position can spill into z
    simp only [matchMarkerAt, dropLit, List.cons_append] at hy ⊢
    by_cases ha : a = 'P'
    · subst ha
      by_cases hb : b = 'a'
      · subst hb
        by_cases hc : c = 'g'
        · subst hc
          by_cases hd : d = 'e'
          · subst hd
            by_cases he : e = ' '
            · subst he
              simp only [if_pos rfl] at hy ⊢
              cases rest with
              | nil =>
                cases z with
                | nil => rfl
                | cons w zs =>
                  cases hw : isDig w with
                  | false => simp [hw]
                  | true => simp [safeJunction, hw] at hz
              | cons f fs =>
                cases hf : isDig f with
                | false => simp [hf] at hy ⊢
                | true => simp [hf] at hy
            · simp [he] at hy ⊢
          · simp [hd] at hy ⊢
        · simp [hc] at hy ⊢
      · simp [hb] at hy ⊢
    · simp [ha] at hy ⊢

theorem noMarkerWithin_append {b : List Char} (z : List Char)
    (hb : noMarkerL b = true) (hz : safeJunction z = true) :
    noMarkerWithin b.length (b ++ z) = true := by
  induction b with
  | nil => rfl
  | cons c cs ih =>
    simp only [noMarkerL, Bool.and_eq_true, Option.isNone_iff_eq_none] at hb
    simp only [List.cons_append, List.length_cons, noMarkerWithin, Bool.and_eq_true,
      Option.isNone_iff_eq_none]
    constructor
    · have := matchMarkerAt_append_none z hb.1 (by simp) hz
      simpa using this
    · exact ih hb.2

theorem matchMarkerAt_chunk {d y : List Char} (hd : goodDigits d = true)
    (hy : ∀ c ∈ y.head?, isDig c = false) :
    matchMarkerAt ("Page ".data ++ (d ++ y)) = some y := by
  simp only [goodDigits, Bool.and_eq_true, Bool.not_eq_true',
    List.all_eq_true] at hd
  obtain ⟨hne, hall⟩ := hd
  cases d with
  | nil => simp at hne
  | cons c ds =>
    unfold matchMarkerAt
    rw [dropLit_self_append]
    simp only [List.cons_append]
    have hc : isDig c = true := hall c (by simp)
    rw [if_pos hc]
    rw [dropWhile_all_append (fun x hx => hall x (by simp [hx])) hy]

theorem safeJunction_of_head {l : List Char} (c : Char) (h : l.head? = some c)
    (hc : (!isDig c && !(c = 'a' || c = 'g' || c = 'e' || c = ' ')) = true) :
    safeJunction l = true := by
  cases l with
  | nil => simp at h
  | cons a rest =>
    simp only [List.head?_cons, Option.some.injEq] at h
    subst h
    exact hc

theorem chunksJoin_head (p : List Char × List Char) (ps2 : List (List Char × List Char)) :
    (chunksJoin (p :: ps2)).head? = some 'P' := by
  show ((markerChunk p.1 p.2 :: ps2.map (fun q => markerChunk q.1 q.2)).flatten).head? = some 'P'
  rw [List.flatten_cons]
  simp only [markerChunk, List.append_assoc, List.head?_append]
  rfl

theorem safeJunction_chunks (ps : List (List Char × List Char)) :
    safeJunction (chunksJoin ps) = true := by
  cases ps with
  | nil => rfl
  | cons p ps2 => exact safeJunction_of_head 'P' (chunksJoin_head p ps2) (by decide)

theorem colorBlock_head (c1 c2 : List Char) : (colorBlockL c1 c2).head? = some 'T' := by
  simp only [colorBlockL, List.append_assoc, List.head?_append]
  rfl

theorem safeJunction_colorBlock (c1 c2 : List Char) :
    safeJunction (colorBlockL c1 c2) = true :=
  safeJunction_of_head 'T' (colorBlock_head c1 c2) (by decide)

theorem matchMarkerAt_nil : matchMarkerAt [] = none := rfl

theorem matchColorAt_nil : matchColorAt [] = none := rfl

theorem splitGo_nil (fuel : Nat) (acc : List Char) : splitGo fuel [] acc = [acc.reverse] := by
  cases fuel with
  | zero => simp [splitGo]
  | succ f => simp [splitGo, matchMarkerAt_nil]

theorem splitGo_skip {b rest : List Char} (acc : List Char) (fuel : Nat)
    (hfuel : (b ++ rest).length ≤ fuel)
    (hb : noMarkerWithin b.length (b ++ rest) = true) :
    splitGo fuel (b ++ rest) acc = splitGo (fuel - b.length) rest (b.reverse ++ acc) := by
  induction b generalizing acc fuel with
  | nil => simp
  | cons c cs ih =>
    cases fuel with
    | zero =>
      rw [List.cons_append] at hfuel
      simp at hfuel
    | succ f =>
      rw [List.cons_append] at hb hfuel ⊢
      simp only [List.length_cons, noMarkerWithin, Bool.and_eq_true,
        Option.isNone_iff_eq_none] at hb
      simp only [splitGo, hb.1]
      rw [ih (c :: acc) f (by simpa using Nat.le_of_succ_le_succ hfuel) hb.2]
      simp only [List.length_cons, Nat.succ_sub_succ, List.reverse_cons, List.append_assoc,
        List.singleton_append]

theorem splitGo_chunks (ps : List (List Char × List Char)) (seed : List Char) (fuel : Nat)
    (hfuel : (chunksJoin ps).length ≤ fuel)
    (hgood : ∀ p ∈ ps, goodDigits p.1 = true ∧ splitBody p.2 = true) :
    splitGo fuel (chunksJoin ps) seed = seed.reverse :: ps.map Prod.snd := by
  induction ps generalizing seed fuel with
  | nil =>
    show splitGo fuel ([].flatten) seed = [seed.reverse]
    rw [List.flatten_nil]
    exact splitGo_nil fuel seed
  | cons p ps2 ih =>
    obtain ⟨d, b⟩ := p
    have hgd := (hgood (d, b) (by simp)).1
    have hgb := (hgood (d, b) (by simp)).2
    simp only [splitBody, Bool.and_eq_true, Bool.not_eq_true'] at hgb
    obtain ⟨⟨hbne, hbhead⟩, hbnm⟩ := hgb
    have hbne2 : b ≠ [] := by simpa using hbne
    have hexp : chunksJoin ((d, b) :: ps2) =
        "Page ".data ++ (d ++ (b ++ chunksJoin ps2)) := by
      show (markerChunk d b :: ps2.map (fun q => markerChunk q.1 q.2)).flatten = _
      rw [List.flatten_cons]
      simp [markerChunk, chunksJoin, List.append_assoc]
    have hheadb : ∀ c ∈ (b ++ chunksJoin ps2).head?, isDig c = false := by
      intro c hc
      cases b with
      | nil => exact absurd rfl hbne2
      | cons x xs =>
        simp only [List.cons_append, List.head?_cons, Option.mem_def,
          Option.some.injEq] at hc
        subst hc
        simpa using hbhead
    have hmark : matchMarkerAt ("Page ".data ++ (d ++ (b ++ chunksJoin ps2))) =
        some (b ++ chunksJoin ps2) := matchMarkerAt_chunk hgd hheadb
    have hlen5 : ("Page ".data).length = 5 := rfl
    rw [hexp] at hfuel ⊢
    simp only [List.length_append, hlen5] at hfuel
    cases fuel with
    | zero => omega
    | succ f =>
      simp only [splitGo, hmark]
      have hf1 : (b ++ chunksJoin ps2).length ≤ f := by
        simp only [List.length_append] at hfuel ⊢
        omega
      have hnmw : noMarkerWithin b.length (b ++ chunksJoin ps2) = true :=
        noMarkerWithin_append (chunksJoin ps2) hbnm (safeJunction_chunks ps2)
      rw [splitGo_skip [] f hf1 hnmw]
      have hf2 : (chunksJoin ps2).length ≤ f - b.length := by
        simp only [List.length_append] at hf1
        omega
      rw [ih (b.reverse ++ []) (f - b.length) hf2
        (fun q hq => hgood q (by simp [hq]))]
      simp

theorem splitGo_length (fuel : Nat) (l acc : List Char) :
    (splitGo fuel l acc).length = countMarkersGo fuel l + 1 := by
  induction fuel generalizing l acc with
  | zero => simp [splitGo, countMarkersGo]
  | succ f ih =>
    cases hm : matchMarkerAt l with
    | some rest => simp [splitGo, countMarkersGo, hm, ih]
    | none =>
      cases l with
      | nil => simp [splitGo, countMarkersGo, hm]
      | cons c cs => simp [splitGo, countMarkersGo, hm, ih]

theorem takeHex_append {c : List Char} (rest : List Char) {n : Nat}
    (hlen : c.length = n) (hhex : ∀ x ∈ c, isHexDig x = true) :
    takeHex n (c ++ rest) = some (c, rest) := by
  induction c generalizing n with
  | nil => subst hlen; rfl
  | cons a cs ih =>
    subst hlen
    simp only [List.length_cons, List.cons_append, takeHex]
    rw [if_pos (hhex a (by simp))]
    simp only [List.append_eq]
    rw [ih rfl (fun x hx => hhex x (by simp [hx]))]
    rfl

theorem colorBlock_shape (c1 c2 : List Char) :
    colorBlockL c1 c2 = "Text Color:".data ++
      (' ' :: '#' :: (c1 ++ ('\n' :: ("Background Color:".data ++ (' ' :: '#' :: c2))))) := by
  show "Text Color: #".data ++ c1 ++ "\nBackground Color: #".data ++ c2 = _
  rw [show "Text Color: #".data = "Text Color:".data ++ [' ', '#'] from rfl]
  rw [show "\nBackground Color: #".data =
    '\n' :: ("Background Color:".data ++ [' ', '#']) from rfl]
  simp [List.append_assoc]

theorem dropWhile_ws_space_hash (x : List Char) :
    (' ' :: '#' :: x).dropWhile isJsWs = '#' :: x := by
  rw [List.dropWhile_cons_of_pos (by decide), List.dropWhile_cons_of_neg (by decide)]

theorem dropLit_hash (x : List Char) : dropLit ['#'] ('#' :: x) = some x :=
  dropLit_self_append ['#'] x

theorem bgData_cons (x : List Char) :
    "Background Color:".data ++ x = 'B' :: ("ackground Color:".data ++ x) := rfl

theorem afterHex1_block (c2tail : List Char) :
    afterHex1 ('\n' :: ("Background Color:".data ++ c2tail)) = some c2tail := by
  have hws : ('\n' :: ("Background Color:".data ++ c2tail)).dropWhile isJsWs =
      "Background Color:".data ++ c2tail := by
    rw [List.dropWhile_cons_of_pos (by decide), bgData_cons,
      List.dropWhile_cons_of_neg (by decide)]
  have htw : ('\n' :: ("Background Color:".data ++ c2tail)).takeWhile isJsWs = ['\n'] := by
    rw [List.takeWhile_cons_of_pos (by decide), bgData_cons,
      List.takeWhile_cons_of_neg (by decide)]
  have htp : tryParen ('\n' :: ("Background Color:".data ++ c2tail)) = none := by
    unfold tryParen
    rw [hws, bgData_cons]
    rw [show dropLit ['('] ('B' :: ("ackground Color:".data ++ c2tail)) = none from by
      simp only [dropLit]
      rw [if_neg (by decide)]]
    rfl
  unfold afterHex1
  rw [htp, Option.none_bind, Option.none_or]
  unfold bgCont wsNlThen
  rw [htw, if_pos (show (['\n'].getLast? = some '\n') from rfl), Option.some_bind, hws]
  exact dropLit_self_append _ _

theorem afterHex2_nil : afterHex2 [] = [] := rfl

theorem matchColorAt_block {c1 c2 : List Char} (h1 : goodHex c1 = true)
    (h2 : goodHex c2 = true) :
    matchColorAt (colorBlockL c1 c2) =
      some (⟨'#' :: c1⟩, ⟨'#' :: c2⟩, []) := by
  obtain ⟨h1len, h1hex⟩ : c1.length = 6 ∧ ∀ x ∈ c1, isHexDig x = true := by
    simpa [goodHex, List.all_eq_true] using h1
  obtain ⟨h2len, h2hex⟩ : c2.length = 6 ∧ ∀ x ∈ c2, isHexDig x = true := by
    simpa [goodHex, List.all_eq_true] using h2
  have h6c2 : takeHex 6 c2 = some (c2, []) := by
    have h0 := takeHex_append [] h2len h2hex
    rwa [List.append_nil] at h0
  rw [colorBlock_shape]
  unfold matchColorAt
  rw [dropLit_self_append]
  simp only [Option.some_bind]
  rw [dropWhile_ws_space_hash, dropLit_hash]
  simp only [Option.some_bind]
  rw [takeHex_append _ h1len h1hex]
  simp only [Option.some_bind]
  rw [afterHex1_block]
  simp only [Option.some_bind]
  rw [dropWhile_ws_space_hash, dropLit_hash]
  simp only [Option.some_bind]
  rw [h6c2]
  simp only [Option.map_some']
  rw [afterHex2_nil]

theorem findColor_at {pre blk : List Char} {a b : String}
    (hm : matchColorAt blk = some (a, b, []))
    (hpre : noColorWithin pre.length (pre ++ blk) = true) :
    findColor (pre ++ blk) = some (pre, a, b, []) := by
  induction pre with
  | nil =>
    cases blk with
    | nil => rw [matchColorAt_nil] at hm; exact absurd hm (by simp)
    | cons c cs => simp [findColor, hm]
  | cons c cs ih =>
    rw [List.cons_append] at hpre ⊢
    simp only [List.length_cons, noColorWithin, Bool.and_eq_true,
      Option.isNone_iff_eq_none] at hpre
    simp only [findColor, hpre.1, ih hpre.2]

theorem splitGo_of_noMarker (fuel : Nat) (l acc : List Char)
    (hfuel : l.length ≤ fuel) (h : noMarkerL l = true) :
    splitGo fuel l acc = [acc.reverse ++ l] := by
  induction fuel generalizing l acc with
  | zero => simp [splitGo]
  | succ fuel ih =>
    cases l with
    | nil => simp [splitGo, matchMarkerAt, dropLit]
    | cons c cs =>
      simp only [noMarkerL, Bool.and_eq_true, Option.isNone_iff_eq_none] at h
      simp only [splitGo, h.1]
      rw [ih cs (c :: acc) (by simpa using Nat.le_of_succ_le_succ hfuel) h.2]
      simp

theorem countMarkersGo_of_noMarker (fuel : Nat) (l : List Char)
    (h : noMarkerL l = true) : countMarkersGo fuel l = 0 := by
  induction fuel generalizing l with
  | zero => simp [countMarkersGo]
  | succ fuel ih =>
    cases l with
    | nil => simp [countMarkersGo, matchMarkerAt, dropLit]
    | cons c cs =>
      simp only [noMarkerL, Bool.and_eq_true, Option.isNone_iff_eq_none] at h
      simp only [countMarkersGo, h.1]
      exact ih cs h.2

theorem takeHex_shape {n : Nat} {l t r : List Char} (h : takeHex n l = some (t, r)) :
    t.length = n ∧ (∀ c ∈ t, isHexDig c = true) := by
  induction n generalizing l t r with
  | zero =>
    simp only [takeHex, Option.some.injEq, Prod.mk.injEq] at h
    obtain ⟨ht, -⟩ := h
    subst ht
    simp
  | succ n ih =>
    cases l with
    | nil => simp [takeHex] at h
    | cons c cs =>
      simp only [takeHex] at h
      split at h
      · rename_i hc
        cases hr : takeHex n cs with
        | none => rw [hr] at h; simp at h
        | some p =>
          obtain ⟨t1, r1⟩ := p
          rw [hr] at h
          simp only [Option.map, Option.some.injEq, Prod.mk.injEq] at h
          obtain ⟨ht, -⟩ := h
          have ihr := ih hr
          subst ht
          refine ⟨by simp [ihr.1], ?_⟩
          intro x hx
          rcases List.mem_cons.mp hx with h1 | h2
          · subst h1; exact hc
          · exact ihr.2 x h2
      · simp at h

theorem sixHex_of_takeHex {l t r : List Char} (h : takeHex 6 l = some (t, r)) :
    isSixHexColor ⟨'#' :: t⟩ = true := by
  have hs := takeHex_shape h
  simp only [isSixHexColor, hs.1, Bool.and_eq_true, decide_eq_true_eq, List.all_eq_true]
  exact ⟨trivial, hs.2⟩

theorem matchColorAt_shape {l : List Char} {a b : String} {r : List Char}
    (h : matchColorAt l = some (a, b, r)) :
    isSixHexColor a = true ∧ isSixHexColor b = true := by
  unfold matchColorAt at h
  cases e0 : dropLit "Text Color:".data l with
  | none => rw [e0] at h; simp at h
  | some l1 =>
    rw [e0, Option.some_bind] at h
    cases e1 : dropLit ['#'] (l1.dropWhile isJsWs) with
    | none => rw [e1] at h; simp at h
    | some l3 =>
      rw [e1, Option.some_bind] at h
      cases e2 : takeHex 6 l3 with
      | none => rw [e2] at h; simp at h
      | some p1 =>
        obtain ⟨t1, l4⟩ := p1
        rw [e2, Option.some_bind] at h
        cases e3 : afterHex1 l4 with
        | none => rw [e3] at h; simp at h
        | some l6 =>
          rw [e3, Option.some_bind] at h
          cases e4 : dropLit ['#'] (l6.dropWhile isJsWs) with
          | none => rw [e4] at h; simp at h
          | some l8 =>
            rw [e4, Option.some_bind] at h
            cases e5 : takeHex 6 l8 with
            | none => rw [e5] at h; simp at h
            | some p2 =>
              obtain ⟨t2, l9⟩ := p2
              rw [e5, Option.map_some'] at h
              simp only [Option.some.injEq, Prod.mk.injEq] at h
              obtain ⟨ha, hb, -⟩ := h
              exact ⟨ha ▸ sixHex_of_takeHex e2, hb ▸ sixHex_of_takeHex e5⟩

theorem findColor_shape {l pre : List Char} {a b : String} {post : List Char}
    (h : findColor l = some (pre, a, b, post)) :
    isSixHexColor a = true ∧ isSixHexColor b = true := by
  induction l generalizing pre a b post with
  | nil => simp [findColor] at h
  | cons c cs ih =>
    simp only [findColor] at h
    split at h
    · rename_i a1 b1 r1 h1
      simp only [Option.some.injEq, Prod.mk.injEq] at h
      obtain ⟨-, ha, hb, -⟩ := h
      have hm := matchColorAt_shape h1
      exact ⟨ha ▸ hm.1, hb ▸ hm.2⟩
    · rename_i h1
      split at h
      · rename_i pre1 a1 b1 post1 h2
        simp only [Option.some.injEq, Prod.mk.injEq] at h
        obtain ⟨-, ha, hb, -⟩ := h
        have hm := ih h2
        exact ⟨ha ▸ hm.1, hb ▸ hm.2⟩
      · exact absurd h (by simp)

theorem chunksJoin_append (A B : List (List Char × List Char)) :
    chunksJoin (A ++ B) = chunksJoin A ++ chunksJoin B := by
  simp [chunksJoin]

theorem chunksJoin_singleton (d b : List Char) :
    chunksJoin [(d, b)] = "Page ".data ++ d ++ b := by
  simp [chunksJoin, markerChunk]

theorem pChunks_head (ps0 : List (List Char × List Char)) (dl z : List Char) :
    ((chunksJoin ps0 ++ ("Page ".data ++ dl)) ++ z).head? = some 'P' := by
  rw [List.head?_append, List.head?_append]
  cases ps0 with
  | nil =>
    rw [show chunksJoin [] = [] from rfl]
    rw [show ("Page ".data ++ dl).head? = some 'P' from by
      rw [show "Page ".data ++ dl = 'P' :: ("age ".data ++ dl) from rfl]; rfl]
    rfl
  | cons p ps2 =>
    rw [chunksJoin_head p ps2]
    rfl

theorem trim_assemblePrefix (t : List Char) (ps0 : List (List Char × List Char))
    (dl bl : List Char) (hbl : jsTrimList bl ≠ []) :
    jsTrimList (assemblePrefix t (ps0 ++ [(dl, bl)])) =
      assemblePrefix (jsTrimL t) (ps0 ++ [(dl, jsTrimR bl)]) := by
  have hrne : jsTrimR bl ≠ [] := trimR_ne_nil hbl
  have hshape : assemblePrefix t (ps0 ++ [(dl, bl)]) =
      (t ++ (chunksJoin ps0 ++ ("Page ".data ++ dl))) ++ bl := by
    simp [assemblePrefix, chunksJoin_append, chunksJoin_singleton, List.append_assoc]
  have hhead : ∀ c ∈ ((chunksJoin ps0 ++ ("Page ".data ++ dl)) ++ jsTrimR bl).head?,
      isJsWs c = false := by
    intro c hc
    rw [pChunks_head] at hc
    simp only [Option.mem_def, Option.some.injEq] at hc
    subst hc
    rfl
  unfold jsTrimList
  rw [hshape, trimR_append hrne, List.append_assoc, trimL_append hhead]
  simp [assemblePrefix, chunksJoin_append, chunksJoin_singleton, List.append_assoc]

theorem map_trim_filter {bs : List (List Char)} (h : ∀ b ∈ bs, jsTrimList b ≠ []) :
    (bs.map jsTrimList).filter (fun s => !s.isEmpty) = bs.map jsTrimList := by
  induction bs with
  | nil => rfl
  | cons b bs2 ih =>
    simp only [List.map_cons, List.filter_cons]
    rw [if_pos (by simpa [List.isEmpty_iff] using h b (by simp))]
    rw [ih (fun x hx => h x (by simp [hx]))]

/-! ## Claims -/

/-- C1 (counterexample): the input below contains a trailing valid color
block and `K = 2` `Page N` markers (`Page 1` and `Page 2`), yet the parser
returns only one page: the segment between the two adjacent markers is
whitespace, and `filter(Boolean)` drops it after trimming.  So the parser
does not always return exactly `K` pages. -/
theorem c1_counterexample :
    countPageMarkers "T\nPage 1 Page 2\nHello\nText Color: #111111\nBackground Color: #222222" = 2 ∧
    (parseStory "T\nPage 1 Page 2\nHello\nText Color: #111111\nBackground Color: #222222").textColor
      = "#111111" ∧
    (parseStory "T\nPage 1 Page 2\nHello\nText Color: #111111\nBackground Color: #222222").backgroundColor
      = "#222222" ∧
    (parseStory "T\nPage 1 Page 2\nHello\nText Color: #111111\nBackground Color: #222222").pages
      = ["Hello"] := by
  decide

/-- C1 (amended): for every canonical well-formed generated text — a
marker-free title segment `t`, `K ≥ 1` page chunks `Page <digits>`
followed by segments that are non-empty after trimming, marker-free, and
not starting with a digit, and a trailing valid color block with no
earlier color-block match — the parser returns exactly `K` pages, namely
the trimmed segments in their original order, and `textColor` /
`backgroundColor` exactly as the two hex values written in the color
block; the remaining story text contains exactly `K` markers. -/
theorem c1_pages_and_colors (t c1 c2 : List Char)
    (ps : List (List Char × List Char))
    (hps : ps ≠ [])
    (hgood : ∀ p ∈ ps, goodDigits p.1 = true ∧ goodBody p.2 = true)
    (ht : noMarkerL t = true)
    (hhex1 : goodHex c1 = true) (hhex2 : goodHex c2 = true)
    (hcolor : noColorWithin (assemblePrefix t ps).length
      (assembleText t ps c1 c2) = true) :
    (parseStoryL (assembleText t ps c1 c2)).textColor = ⟨'#' :: c1⟩ ∧
    (parseStoryL (assembleText t ps c1 c2)).backgroundColor = ⟨'#' :: c2⟩ ∧
    (parseStoryL (assembleText t ps c1 c2)).pages =
      ps.map (fun p => (⟨jsTrimList p.2⟩ : String)) ∧
    (parseStoryL (assembleText t ps c1 c2)).pages.length = ps.length ∧
    countMarkersL (remainingTextL (assembleText t ps c1 c2)) = ps.length := by
  have hfind : findColor (assembleText t ps c1 c2) =
      some (assemblePrefix t ps, ⟨'#' :: c1⟩, ⟨'#' :: c2⟩, []) :=
    findColor_at (matchColorAt_block hhex1 hhex2) hcolor
  have hscan : colorScanL (assembleText t ps c1 c2) =
      (⟨'#' :: c1⟩, ⟨'#' :: c2⟩, jsTrimList (assemblePrefix t ps)) := by
    simp [colorScanL, hfind]
  rcases List.eq_nil_or_concat ps with rfl | ⟨ps0, ⟨dl, bl⟩, rfl⟩
  · exact absurd rfl hps
  rw [List.concat_eq_append] at hgood hcolor hscan ⊢
  have hbl := hgood (dl, bl) (by simp)
  obtain ⟨hbldig, hblbody⟩ := hbl
  have hblparts : jsTrimList bl ≠ [] ∧ isDig (bl.headD 'a') = false ∧
      noMarkerL bl = true := by
    have h0 := hblbody
    simp only [goodBody, Bool.and_eq_true, Bool.not_eq_true', List.isEmpty_eq_false] at h0
    exact ⟨h0.1.1, h0.1.2, h0.2⟩
  obtain ⟨hblne, hblhead, hblnm⟩ := hblparts
  have hstory : jsTrimList (assemblePrefix t (ps0 ++ [(dl, bl)])) =
      assemblePrefix (jsTrimL t) (ps0 ++ [(dl, jsTrimR bl)]) :=
    trim_assemblePrefix t ps0 dl bl hblne
  have hgood2 : ∀ p ∈ ps0 ++ [(dl, jsTrimR bl)],
      goodDigits p.1 = true ∧ splitBody p.2 = true := by
    intro p hp
    rcases List.mem_append.mp hp with h0 | hlast
    · have hg := hgood p (by simp [h0])
      refine ⟨hg.1, ?_⟩
      have h1 := hg.2
      simp only [goodBody, Bool.and_eq_true, Bool.not_eq_true', List.isEmpty_eq_false] at h1
      simp only [splitBody, Bool.and_eq_true, Bool.not_eq_true', List.isEmpty_eq_false]
      exact ⟨⟨ne_nil_of_trim_ne_nil h1.1.1, h1.1.2⟩, h1.2⟩
    · simp only [List.mem_singleton] at hlast
      subst hlast
      refine ⟨hbldig, ?_⟩
      have hrne : jsTrimR bl ≠ [] := trimR_ne_nil hblne
      simp only [splitBody, Bool.and_eq_true, Bool.not_eq_true', List.isEmpty_eq_false]
      refine ⟨⟨hrne, ?_⟩, noMarker_trimR hblnm⟩
      simp only [List.headD_eq_head?_getD, head?_trimR hrne]
      simpa [List.headD_eq_head?_getD] using hblhead
  have hsplit : splitPagesL (assemblePrefix (jsTrimL t) (ps0 ++ [(dl, jsTrimR bl)])) =
      jsTrimL t :: (ps0 ++ [(dl, jsTrimR bl)]).map Prod.snd := by
    unfold splitPagesL assemblePrefix
    rw [splitGo_skip [] _ (Nat.le_refl _)
      (noMarkerWithin_append _ (noMarker_trimL ht)
        (safeJunction_chunks (ps0 ++ [(dl, jsTrimR bl)])))]
    rw [show (jsTrimL t ++ chunksJoin (ps0 ++ [(dl, jsTrimR bl)])).length -
        (jsTrimL t).length = (chunksJoin (ps0 ++ [(dl, jsTrimR bl)])).length from by
      simp [List.length_append]]
    rw [splitGo_chunks (ps0 ++ [(dl, jsTrimR bl)]) _ _ (Nat.le_refl _) hgood2]
    simp
  have hpagesL : ((ps0 ++ [(dl, jsTrimR bl)]).map Prod.snd).map jsTrimList =
      (ps0 ++ [(dl, bl)]).map (fun p => jsTrimList p.2) := by
    simp only [List.map_append, List.map_map, List.map_cons, List.map_nil]
    congr 1
    simp [Function.comp, trim_trimR]
  have hnonempty : ∀ b2 ∈ (ps0 ++ [(dl, bl)]).map (fun p => jsTrimList p.2),
      b2 ≠ [] := by
    intro b2 hb2
    simp only [List.mem_map] at hb2
    obtain ⟨p, hp, rfl⟩ := hb2
    have hg := (hgood p hp).2
    simp only [goodBody, Bool.and_eq_true, Bool.not_eq_true', List.isEmpty_eq_false] at hg
    exact hg.1.1
  have hfilter : (((ps0 ++ [(dl, bl)]).map (fun p => jsTrimList p.2)).filter
      (fun s => !s.isEmpty)) = (ps0 ++ [(dl, bl)]).map (fun p => jsTrimList p.2) := by
    have hne2 : ∀ b2 ∈ (ps0 ++ [(dl, bl)]).map Prod.snd, jsTrimList b2 ≠ [] := by
      intro b2 hb2
      simp only [List.mem_map] at hb2
      obtain ⟨p, hp, rfl⟩ := hb2
      have hg := (hgood p hp).2
      simp only [goodBody, Bool.and_eq_true, Bool.not_eq_true',
        List.isEmpty_eq_false] at hg
      exact hg.1.1
    have := map_trim_filter hne2
    simpa [List.map_map, Function.comp] using this
  have hrem : remainingTextL (assembleText t (ps0 ++ [(dl, bl)]) c1 c2) =
      assemblePrefix (jsTrimL t) (ps0 ++ [(dl, jsTrimR bl)]) := by
    show (colorScanL (assembleText t (ps0 ++ [(dl, bl)]) c1 c2)).2.2 = _
    rw [hscan, hstory]
  refine ⟨?_, ?_, ?_, ?_, ?_⟩
  · show (colorScanL (assembleText t (ps0 ++ [(dl, bl)]) c1 c2)).1 = _
    rw [hscan]
  · show (colorScanL (assembleText t (ps0 ++ [(dl, bl)]) c1 c2)).2.1 = _
    rw [hscan]
  · show ((((splitPagesL
        (colorScanL (assembleText t (ps0 ++ [(dl, bl)]) c1 c2)).2.2).tail.map
          jsTrimList).filter (fun seg => !seg.isEmpty)).map
            (fun seg => (⟨seg⟩ : String))) = _
    rw [hscan]
    show ((((splitPagesL (jsTrimList (assemblePrefix t (ps0 ++ [(dl, bl)])))).tail.map
      jsTrimList).filter (fun seg => !seg.isEmpty)).map (fun seg => (⟨seg⟩ : String))) = _
    rw [hstory, hsplit, List.tail_cons, hpagesL, hfilter, List.map_map]
    rfl
  · show ((((splitPagesL
        (colorScanL (assembleText t (ps0 ++ [(dl, bl)]) c1 c2)).2.2).tail.map
          jsTrimList).filter (fun seg => !seg.isEmpty)).map
            (fun seg => (⟨seg⟩ : String))).length = _
    rw [hscan]
    show ((((splitPagesL (jsTrimList (assemblePrefix t (ps0 ++ [(dl, bl)])))).tail.map
      jsTrimList).filter (fun seg => !seg.isEmpty)).map
        (fun seg => (⟨seg⟩ : String))).length = _
    rw [hstory, hsplit, List.tail_cons, hpagesL, hfilter]
    simp
  · rw [hrem]
    have hlen := splitGo_length
      (assemblePrefix (jsTrimL t) (ps0 ++ [(dl, jsTrimR bl)])).length
      (assemblePrefix (jsTrimL t) (ps0 ++ [(dl, jsTrimR bl)])) []
    rw [show splitGo (assemblePrefix (jsTrimL t) (ps0 ++ [(dl, jsTrimR bl)])).length
        (assemblePrefix (jsTrimL t) (ps0 ++ [(dl, jsTrimR bl)])) [] =
      splitPagesL (assemblePrefix (jsTrimL t) (ps0 ++ [(dl, jsTrimR bl)])) from rfl,
      hsplit] at hlen
    simp only [List.length_cons, List.length_map, List.length_append] at hlen
    show countMarkersGo (assemblePrefix (jsTrimL t) (ps0 ++ [(dl, jsTrimR bl)])).length
      (assemblePrefix (jsTrimL t) (ps0 ++ [(dl, jsTrimR bl)])) = _
    simp only [List.length_append, List.length_cons] at hlen ⊢
    omega

/-- Witness for C1 at a concrete canonical text — the spec's own
end-to-end example `Title: The Boulder / Page 1 / He pushed. / Page 2 /
It fell.` with colors `#111111` / `#eeeeee`. -/
theorem c1_witness :
    assembleText "Title: The Boulder\n".data
        [("1".data, "\nHe pushed.\n".data), ("2".data, "\nIt fell.\n".data)]
        "111111".data "eeeeee".data =
      "Title: The Boulder\nPage 1\nHe pushed.\nPage 2\nIt fell.\nText Color: #111111\nBackground Color: #eeeeee".data ∧
    (parseStory "Title: The Boulder\nPage 1\nHe pushed.\nPage 2\nIt fell.\nText Color: #111111\nBackground Color: #eeeeee").textColor = "#111111" ∧
    (parseStory "Title: The Boulder\nPage 1\nHe pushed.\nPage 2\nIt fell.\nText Color: #111111\nBackground Color: #eeeeee").pages = ["He pushed.", "It fell."] ∧
    (parseStory "Title: The Boulder\nPage 1\nHe pushed.\nPage 2\nIt fell.\nText Color: #111111\nBackground Color: #eeeeee").pages.length = 2 := by
  have happ := c1_pages_and_colors "Title: The Boulder\n".data "111111".data
    "eeeeee".data [("1".data, "\nHe pushed.\n".data), ("2".data, "\nIt fell.\n".data)]
    (by decide) (by decide) (by decide) (by decide) (by decide) (by decide)
  refine ⟨by decide, ?_, ?_, ?_⟩
  · have h1 := happ.1
    rw [show parseStory "Title: The Boulder\nPage 1\nHe pushed.\nPage 2\nIt fell.\nText Color: #111111\nBackground Color: #eeeeee" =
      parseStoryL (assembleText "Title: The Boulder\n".data
        [("1".data, "\nHe pushed.\n".data), ("2".data, "\nIt fell.\n".data)]
        "111111".data "eeeeee".data) from by decide]
    rw [h1]
  · rw [show parseStory "Title: The Boulder\nPage 1\nHe pushed.\nPage 2\nIt fell.\nText Color: #111111\nBackground Color: #eeeeee" =
      parseStoryL (assembleText "Title: The Boulder\n".data
        [("1".data, "\nHe pushed.\n".data), ("2".data, "\nIt fell.\n".data)]
        "111111".data "eeeeee".data) from by decide]
    rw [happ.2.2.1]
    decide
  · rw [show parseStory "Title: The Boulder\nPage 1\nHe pushed.\nPage 2\nIt fell.\nText Color: #111111\nBackground Color: #eeeeee" =
      parseStoryL (assembleText "Title: The Boulder\n".data
        [("1".data, "\nHe pushed.\n".data), ("2".data, "\nIt fell.\n".data)]
        "111111".data "eeeeee".data) from by decide]
    rw [happ.2.2.2.1]
    decide

/-- C2 (code bug): the code's own comment says "Remove the color lines and
any trailing text after them", and the spec says the parser strips the
entire block *and anything after the match start*; but
`story.replace(colorBlockRegex, '')` removes only the matched block (plus
trailing whitespace), so the text `Trail` located after the color block's
start survives into the last page. -/
theorem c2_trailing_text_survives :
    parseStory "T\nPage 1\nBody\nText Color: #111111\nBackground Color: #222222\nTrail" =
      { title := "T", pages := ["Body\nTrail"], textColor := "#111111",
        backgroundColor := "#222222" } := by
  decide

/-- C3: the generator's single call to the fixed model `gemini-2.5-flash`
realises the spec's ordered-fallback algorithm on the one-element candidate
list `["gemini-2.5-flash"]`: for every behaviour of the external service
the code's result equals the fallback algorithm's result (with any seed for
the "last error observed").  On a one-element list the retry-on-rate-limit
branch is vacuous: a retryable failure exhausts the list and is surfaced as
the last error observed, and a non-retryable failure aborts — both coincide
with the code's propagate-any-error behaviour. -/
theorem c3_generator_refines_fallback (call : String → Except GenError String)
    (e0 : GenError) :
    generateStoryText call = specFallbackGo call ["gemini-2.5-flash"] e0 := by
  unfold generateStoryText specFallbackGo
  cases h : call "gemini-2.5-flash" with
  | ok t => rfl
  | error e => cases e <;> simp [GenError.retryable, specFallbackGo]

/-- C4 (spec-modelled): the `GET /api/download-images` handler — absent from
`src/`, modelled from the spec — responds 400 when no current images exist,
500 when archiving fails, and otherwise a zip body with
`Content-Type: application/zip` and `Content-Disposition: attachment`. -/
theorem c4_download_images_contract (images : List String)
    (archive : List String → Except ArchiveError (List Nat)) :
    (images = [] → (downloadImagesHandler images archive).status = 400) ∧
    (images ≠ [] → ∀ e, archive images = .error e →
      (downloadImagesHandler images archive).status = 500) ∧
    (images ≠ [] → ∀ bytes, archive images = .ok bytes →
      downloadImagesHandler images archive =
        { status := 200, contentType := some "application/zip",
          contentDisposition := some "attachment", body := some bytes }) := by
  refine ⟨?_, ?_, ?_⟩
  · intro h; subst h; rfl
  · intro h e he
    simp [downloadImagesHandler, List.isEmpty_iff, h, he]
  · intro h bytes hb
    simp [downloadImagesHandler, List.isEmpty_iff, h, hb]

/-- Witness for C4 at concrete inputs. -/
theorem c4_witness :
    (downloadImagesHandler [] (fun _ => .ok [0])).status = 400 ∧
    (downloadImagesHandler ["story_page_0.png"]
      (fun _ => .error (.failure "disk"))).status = 500 ∧
    downloadImagesHandler ["story_page_0.png"] (fun _ => .ok [80, 75]) =
      { status := 200, contentType := some "application/zip",
        contentDisposition := some "attachment", body := some [80, 75] } :=
  ⟨(c4_download_images_contract [] (fun _ => .ok [0])).1 rfl,
   (c4_download_images_contract ["story_page_0.png"]
      (fun _ => .error (.failure "disk"))).2.1 (by simp) (.failure "disk") rfl,
   (c4_download_images_contract ["story_page_0.png"]
      (fun _ => .ok [80, 75])).2.2 (by simp) [80, 75] rfl⟩

/-- C5 (counterexample): a validation-failing request (missing
`ERA_OR_CULTURE`) does respond 400 and the pipeline does not run, but the
artifact directory is *not* left unchanged: the handler deletes the old
`story_page_*.png` files before validating. -/
theorem c5_counterexample :
    (storyEndpointPreamble ["story_page_0.png"] none).status = some 400 ∧
    (storyEndpointPreamble ["story_page_0.png"] none).pipelineRan = false ∧
    (storyEndpointPreamble ["story_page_0.png"] none).files ≠ ["story_page_0.png"] := by
  decide

/-- C5 (amended): when `ERA_OR_CULTURE` is missing (or empty, which is
equally falsy) the server responds 400 and the generation/rendering
pipeline does not run, but the artifact cleanup has already executed: every
`story_page_*.png` file has been deleted from the artifact directory. -/
theorem c5_validation_still_deletes (files : List String) (era : Option String)
    (h : era.getD "" = "") :
    (storyEndpointPreamble files era).status = some 400 ∧
    (storyEndpointPreamble files era).pipelineRan = false ∧
    (storyEndpointPreamble files era).files =
      files.filter (fun f => !matchesArtifactGlob f) := by
  simp [storyEndpointPreamble, h]

/-- Witness for C5 at a concrete input. -/
theorem c5_witness :
    ((none : Option String).getD "" = "") ∧
    (storyEndpointPreamble ["story_page_0.png", "keep.txt"] none).status = some 400 ∧
    (storyEndpointPreamble ["story_page_0.png", "keep.txt"] none).files = ["keep.txt"] := by
  refine ⟨rfl, (c5_validation_still_deletes ["story_page_0.png", "keep.txt"] none rfl).1, ?_⟩
  rw [(c5_validation_still_deletes ["story_page_0.png", "keep.txt"] none rfl).2.2]
  decide

/-- C6 (counterexample): on input with no color block the parser's fallback
`textColor` is the three-hex-digit shorthand `'#222'`, not a six-hex-digit
color string as the claim asserts. -/
theorem c6_counterexample :
    (parseStory "").textColor = "#222" ∧
    isSixHexColor "#222" = false ∧
    (parseStory "").backgroundColor = "#fffbe9" := by
  decide

/-- C6 (amended): for every input, the colors of the parsed story are
either both six-hex-digit values captured from a well-formed color block,
or the fixed fallback pair `('#222', '#fffbe9')` — whose text color is a
three-hex-digit CSS shorthand, not a six-hex-digit string — and in the
fallback case the text is left unsplit at the (absent) color boundary. -/
theorem c6_color_invariant (input : String) :
    (isSixHexColor (parseStory input).textColor = true ∧
     isSixHexColor (parseStory input).backgroundColor = true) ∨
    ((parseStory input).textColor = "#222" ∧
     (parseStory input).backgroundColor = "#fffbe9" ∧
     remainingText input = input) := by
  have hp : (parseStory input).textColor = (colorScanL input.data).1 := rfl
  have hq : (parseStory input).backgroundColor = (colorScanL input.data).2.1 := rfl
  cases h : findColor input.data with
  | some q =>
    obtain ⟨pre, a, b, post⟩ := q
    left
    have hs := findColor_shape h
    refine ⟨?_, ?_⟩
    · rw [hp]; simp only [colorScanL, h]; exact hs.1
    · rw [hq]; simp only [colorScanL, h]; exact hs.2
  | none =>
    right
    refine ⟨?_, ?_, ?_⟩
    · rw [hp]; simp only [colorScanL, h]
    · rw [hq]; simp only [colorScanL, h]
    · show (⟨remainingTextL input.data⟩ : String) = input
      simp only [remainingTextL, colorScanL, h]

/-- C7 (counterexample): the input below contains no `Page N` marker at all
(`countPageMarkers` of the raw input is 0), yet the parser does not return
the remaining trimmed input as the title: removing the color block fuses
`Pag` and `e 1` into a fresh `Page 1` marker, so the remaining text is
`"Page 1"` but the returned title is `""` and not `"Page 1"`. -/
theorem c7_counterexample :
    countPageMarkers "PagText Color: #111111\nBackground Color: #222222e 1" = 0 ∧
    remainingText "PagText Color: #111111\nBackground Color: #222222e 1" = "Page 1" ∧
    jsTrim (stripTitleLabel "Page 1") = "Page 1" ∧
    (parseStory "PagText Color: #111111\nBackground Color: #222222e 1").title = "" ∧
    (parseStory "PagText Color: #111111\nBackground Color: #222222e 1").pages = [] := by
  decide

/-- C7 (amended): whenever the *remaining* text (after color-block removal)
contains no `Page N` marker, the parser returns an empty page sequence and
a title equal to that entire remaining text with any leading `Title:` label
(case-insensitively) removed, then trimmed. -/
theorem c7_no_markers (input : String)
    (h : noMarkerL (remainingTextL input.data) = true) :
    (parseStory input).pages = [] ∧
    (parseStory input).title = jsTrim (stripTitleLabel (remainingText input)) := by
  have hsplit : splitPagesL (remainingTextL input.data) = [remainingTextL input.data] := by
    simpa [splitPagesL] using
      splitGo_of_noMarker (remainingTextL input.data).length (remainingTextL input.data) []
        (Nat.le_refl _) h
  have hrem : (colorScanL input.data).2.2 = remainingTextL input.data := rfl
  constructor
  · show ((((splitPagesL (colorScanL input.data).2.2).tail.map jsTrimList).filter
      (fun seg => !seg.isEmpty)).map (fun seg => (⟨seg⟩ : String))) = []
    rw [hrem, hsplit]
    rfl
  · show (⟨jsTrimList (stripTitleLabelL
      ((splitPagesL (colorScanL input.data).2.2).headD []))⟩ : String) = _
    rw [hrem, hsplit]
    rfl

/-- Witness for C7 at a concrete input. -/
theorem c7_witness :
    noMarkerL (remainingTextL
      "Title: Hello\nText Color: #111111\nBackground Color: #eeeeee".data) = true ∧
    (parseStory "Title: Hello\nText Color: #111111\nBackground Color: #eeeeee").pages = [] ∧
    (parseStory "Title: Hello\nText Color: #111111\nBackground Color: #eeeeee").title =
      jsTrim (stripTitleLabel
        (remainingText "Title: Hello\nText Color: #111111\nBackground Color: #eeeeee")) :=
  ⟨by decide,
   (c7_no_markers "Title: Hello\nText Color: #111111\nBackground Color: #eeeeee" (by decide)).1,
   (c7_no_markers "Title: Hello\nText Color: #111111\nBackground Color: #eeeeee" (by decide)).2⟩

/-- C8: the generated document contains a page-number element exactly when
the effective `pageNumber` option (`options.pageNumber || ''`) is
non-empty; when present it carries the label and the `.page-number` style:
`font-size: 24px` (smaller than the 32px/48px content sizes the endpoints
use), `opacity: 0.7` (semi-transparent), anchored `right: 32px` /
`bottom: 24px` from the bottom-right corner. -/
theorem c8_page_number_element (text : String) (o : RenderOptions) :
    ((renderDocument text o).pageNumberElem.isSome ↔ jsOrStr o.pageNumber "" ≠ "") ∧
    (∀ e, (renderDocument text o).pageNumberElem = some e →
      e.label = jsOrStr o.pageNumber "" ∧ e.fontSizePx = 24 ∧ e.rightPx = 32 ∧
        e.bottomPx = 24 ∧ e.opacityTenths = 7) := by
  by_cases h : jsOrStr o.pageNumber "" = ""
  · refine ⟨?_, ?_⟩
    · simp [renderDocument, h]
    · intro e he
      simp [renderDocument, h] at he
  · refine ⟨?_, ?_⟩
    · simp [renderDocument, h]
    · intro e he
      simp only [renderDocument, if_neg h, Option.some.injEq] at he
      subst he
      exact ⟨rfl, rfl, rfl, rfl, rfl⟩

/-- Witness for C8 at concrete inputs: a supplied label yields the element
with the documented style; the default (absent) label yields none. -/
theorem c8_witness :
    ((renderDocument "body" { pageNumber := some "Page 3" }).pageNumberElem =
      some { label := "Page 3", fontSizePx := 24, rightPx := 32, bottomPx := 24,
             opacityTenths := 7 }) ∧
    (PageNumberElement.label
        { label := "Page 3", fontSizePx := 24, rightPx := 32, bottomPx := 24,
          opacityTenths := 7 } = jsOrStr (some "Page 3") "" ∧
      PageNumberElement.fontSizePx
        { label := "Page 3", fontSizePx := 24, rightPx := 32, bottomPx := 24,
          opacityTenths := 7 } = 24) ∧
    (renderDocument "title" {}).pageNumberElem = none := by
  have happ := (c8_page_number_element "body" { pageNumber := some "Page 3" }).2
    { label := "Page 3", fontSizePx := 24, rightPx := 32, bottomPx := 24, opacityTenths := 7 }
    (by decide)
  exact ⟨by decide, ⟨happ.1, happ.2.1⟩, by decide⟩

/-- C9: for every successful `/api/story` response, the render-call list
starts with the title page (rendered unconditionally, even for an empty
title or an empty page list), `imagePaths` has exactly `pages.length + 1`
entries, and the entry at position `i` is the deterministic path
`story_page_i.png` under the artifact directory. -/
theorem c9_image_paths (dir title : String) (pages : List String) :
    (storyImagePaths dir title pages).length = pages.length + 1 ∧
    (∀ i, (h : i < (storyImagePaths dir title pages).length) →
      (storyImagePaths dir title pages).get ⟨i, h⟩ = imagePathFor dir i) ∧
    (storyRenderCalls dir title pages).head? = some (title, imagePathFor dir 0) := by
  refine ⟨by simp [storyImagePaths, storyRenderCalls], ?_, rfl⟩
  intro i h
  cases i with
  | zero => rfl
  | succ n =>
    have hn : n < pages.length := by
      simpa [storyImagePaths, storyRenderCalls] using h
    simp [storyImagePaths, storyRenderCalls, List.get_eq_getElem, hn]

/-- Witness for C9 at a concrete input (including the empty-pages and
empty-title edge case). -/
theorem c9_witness :
    (storyImagePaths "/d/" "" ["a", "b"]).length = 3 ∧
    (storyImagePaths "/d/" "" ["a", "b"]).get ⟨1, by decide⟩ = "/d/story_page_1.png" ∧
    (storyImagePaths "/d/" "" []).length = 1 ∧
    (storyRenderCalls "/d/" "" []).head? = some ("", "/d/story_page_0.png") := by
  refine ⟨(c9_image_paths "/d/" "" ["a", "b"]).1, ?_, (c9_image_paths "/d/" "" []).1, ?_⟩
  · rw [(c9_image_paths "/d/" "" ["a", "b"]).2.1 1 (by decide)]
    decide
  · rw [(c9_image_paths "/d/" "" []).2.2]
    decide

/-- C10: `/api/send-images-email` responds 400 exactly when the `email`
field is absent, the string does not contain `@gmail.com` as a substring,
`imagePaths` is not an array, or `imagePaths` is empty; in particular a
string merely containing `@gmail.com` in the middle — here
`user@gmail.com.example.org` — passes validation. -/
theorem c10_email_validation :
    (∀ (email : Option String) (imagePaths : Option (List String)),
      emailValidationRejects email imagePaths = true ↔
        (email = none ∨
          (∃ e, email = some e ∧ includesSub e.data "@gmail.com".data = false) ∨
          imagePaths = none ∨ imagePaths = some [])) ∧
    emailValidationRejects (some "user@gmail.com.example.org") (some ["a.png"]) = false := by
  constructor
  · intro email imagePaths
    cases email with
    | none => simp [emailValidationRejects]
    | some e =>
      cases imagePaths with
      | none => simp [emailValidationRejects]
      | some ips =>
        simp only [emailValidationRejects, Option.getD_some, Option.isNone_some,
          Bool.or_eq_true, Bool.not_eq_true', decide_eq_true_eq, List.isEmpty_iff,
          Option.some.injEq, reduceCtorEq, false_or, or_false, exists_eq_left']
        constructor
        · rintro ((he | hni) | hemp)
          · left; subst he; decide
          · left; exact hni
          · right; exact hemp
        · rintro (hni | hemp)
          · left; right; exact hni
          · right; exact hemp
  · decide

end Scribber
